import Mathlib

/-!
Verification of the JotForm API python client (`jotform.py`).

The development shallow-embeds the request-construction pipeline of the
client: JSON values, the `pathlib.Path(...).with_suffix('.json')` step,
the (restricted) `urllib.parse.urljoin` resolution, the parameter-bag
builders (`create_conditions`, `create_history_query`, the submission /
question / property / whole-form flattenings) and the dispatch of every
public operation to `fetch_url`.
-/

/-- JSON values, modelling the python objects passed through the client
(`None` is `null`, dicts are `obj` association lists in insertion order). -/
inductive Json where
  | null : Json
  | bool (b : Bool) : Json
  | num (n : Int) : Json
  | str (s : String) : Json
  | arr (xs : List Json) : Json
  | obj (xs : List (String × Json)) : Json

/-- Python truthiness of a JSON value (`if filters:`): `None`, `False`, `0`,
empty string / list / dict are falsy, everything else truthy. -/
def jsonTruthy : Json → Bool
  | .null => false
  | .bool b => b
  | .num n => n != 0
  | .str s => s != ""
  | .arr xs => !xs.isEmpty
  | .obj xs => !xs.isEmpty

/-- String escaping of `json.dumps` (the characters the client's filter
payloads can contain: quote and backslash). -/
def jsonEscape (s : String) : String :=
  String.mk (s.toList.flatMap (fun c =>
    if c = '"' then ['\\', '"']
    else if c = '\\' then ['\\', '\\']
    else [c]))

mutual
/-- `json.dumps` with python's default separators. -/
def jsonDumps : Json → String
  | .null => "null"
  | .bool true => "true"
  | .bool false => "false"
  | .num n => toString n
  | .str s => "\"" ++ jsonEscape s ++ "\""
  | .arr xs => "[" ++ String.intercalate ", " (jsonDumpsList xs) ++ "]"
  | .obj xs => "\x7b" ++ String.intercalate ", " (jsonDumpsObj xs) ++ "\x7d"

def jsonDumpsList : List Json → List String
  | [] => []
  | x :: xs => jsonDumps x :: jsonDumpsList xs

def jsonDumpsObj : List (String × Json) → List String
  | [] => []
  | kv :: xs => ("\"" ++ jsonEscape kv.1 ++ "\": " ++ jsonDumps kv.2) :: jsonDumpsObj xs
end

/-- Python dict assignment `d[k] = v` on an insertion-ordered association
list: an existing key keeps its position and gets the new value, a new key
is appended. -/
def dictSet (p : List (String × Json)) (k : String) (v : Json) : List (String × Json) :=
  if p.any (fun q => q.1 == k) then p.map (fun q => if q.1 == k then (k, v) else q)
  else p ++ [(k, v)]

/-! ## The `pathlib` suffix step

`fetch_url` runs `str(pathlib.Path(url).with_suffix('.json'))`.  We model
POSIX path parsing on character lists: the root (`''`, `'/'`, or the POSIX
special `'//'`), the components (splitting on `'/'`, dropping empty and
`'.'` entries), and `with_suffix`, which rewrites only the last component:
its suffix — the part from the last `'.'` when that dot is neither first
nor last character of the name — is replaced by `.json` (appended when
there is none).  `with_suffix` raises `ValueError` when the path has no
final component; we return `none` there. -/

/-- Split a character list on a separator character; mirrors
`str.split(sep)` / the component split of `pathlib`. -/
def splitOnChar (c : Char) : List Char → List (List Char)
  | [] => [[]]
  | x :: xs =>
    let r := splitOnChar c xs
    if x = c then [] :: r
    else
      match r with
      | [] => [[x]]
      | h :: t => (x :: h) :: t

/-- Join components with a separator character. -/
def joinSep (c : Char) (l : List (List Char)) : List Char :=
  match l with
  | [] => []
  | [p] => p
  | p :: ps => p ++ c :: joinSep c ps

/-- POSIX root of a path string: `//` exactly when the path starts with two
(but not three) slashes, else `/` for an absolute path, else empty. -/
def rootOf (cs : List Char) : List Char :=
  if cs.take 2 = ['/', '/'] then
    (if cs.take 3 = ['/', '/', '/'] then ['/'] else ['/', '/'])
  else if cs.take 1 = ['/'] then ['/'] else []

/-- Path components as `pathlib` keeps them: empty and `'.'` entries dropped. -/
def pathParts (cs : List Char) : List (List Char) :=
  (splitOnChar '/' cs).filter (fun p => !(p.isEmpty || p == ['.']))

/-- Start index of the suffix of a final path component: the position of the
last `'.'`, provided it is neither the first nor the last character
(`pathlib`'s `suffix` property); `none` when the name has no suffix. -/
def sufIdx (name : List Char) : Option Nat :=
  match name.reverse.findIdx? (· = '.') with
  | none => none
  | some j =>
    let i := name.length - 1 - j
    if 0 < i ∧ i < name.length - 1 then some i else none

/-- `str(pathlib.Path(cs).with_suffix('.json'))` on character lists:
`none` models the `ValueError` on an empty final component. -/
def withSuffixJson (cs : List Char) : Option (List Char) :=
  let root := rootOf cs
  let parts := pathParts cs
  match parts.getLast? with
  | none => none
  | some name =>
    let newName :=
      (match sufIdx name with
       | some i => name.take i
       | none => name) ++ ('.' :: ['j', 's', 'o', 'n'])
    some (root ++ joinSep '/' (parts.dropLast ++ [newName]))

/-- String-level wrapper for the suffix step. -/
def withSuffixJsonS (s : String) : Option String :=
  (withSuffixJson s.toList).map String.mk

/-! ## `urllib.parse.urljoin`, restricted

The client only ever joins an absolute `https` base with a reference that
is a plain path (no scheme, authority, query or fragment): `urljoin(base_url,
'v1')` and `urljoin(versioned, endpoint)` where every endpoint starts with
`'/'`.  The model implements exactly the RFC 3986 reference-resolution
cases those references hit: empty reference, network-path (`//…`),
absolute-path (`/…`), and relative merge against the base directory. -/

/-- Split an absolute URL at the first `"://"`: (scheme, remainder). -/
def splitScheme (acc : List Char) : List Char → Option (List Char × List Char)
  | ':' :: '/' :: '/' :: rest => some (acc.reverse, rest)
  | x :: rest => splitScheme (x :: acc) rest
  | [] => none

/-- `urllib.parse.urljoin(base, ref)` for the reference shapes the client
produces (plain paths). -/
def urljoin (base ref : String) : String :=
  match splitScheme [] base.toList with
  | none => ref
  | some (scheme, rest) =>
    let netloc := rest.takeWhile (· ≠ '/')
    let bpath := rest.dropWhile (· ≠ '/')
    let r := ref.toList
    if r.isEmpty then base
    else if r.take 2 = ['/', '/'] then String.mk (scheme ++ ':' :: r)
    else if r.take 1 = ['/'] then String.mk (scheme ++ ':' :: '/' :: '/' :: (netloc ++ r))
    else
      let dir := if bpath.isEmpty then ['/'] else (bpath.reverse.dropWhile (· ≠ '/')).reverse
      String.mk (scheme ++ ':' :: '/' :: '/' :: (netloc ++ dir ++ r))

/-! ## The client and `fetch_url` -/

/-- The client configuration set by `__init__`. -/
structure JotformAPIClient where
  api_key : String
  debug_mode : Bool

/-- `JotformAPIClient.base_url`. -/
def base_url : String := "https://api.jotform.com/"

/-- `JotformAPIClient.api_version`. -/
def api_version : String := "v1"

/-- The parameter bag handed to `requests.request`: either a dict built by
the client, or a caller-supplied JSON payload passed through unchanged
(the `PUT` endpoints). -/
inductive ParamBag where
  | dict (d : List (String × Json)) : ParamBag
  | json (j : Json) : ParamBag

/-- The single HTTP request `fetch_url` issues, as constructed by the code:
verb, final URL, the `apiKey` header value, and the parameter bag. -/
structure Request where
  method : String
  url : String
  apiKeyHeader : String
  params : Option ParamBag

/-- The request-construction part of `fetch_url`: resolve the version
segment against the base, `.json`-suffix the resource path, resolve it
against the versioned base, and attach the `apiKey` header; `none` models
the `ValueError` from `with_suffix` on a path without final component. -/
def fetch_url (c : JotformAPIClient) (url : String) (params : Option ParamBag)
    (method : String) : Option Request :=
  let versioned := urljoin base_url api_version
  match withSuffixJsonS url with
  | none => none
  | some endpoint =>
    some { method := method, url := urljoin versioned endpoint,
           apiKeyHeader := c.api_key, params := params }

/-- The response-handling part of `fetch_url`:
`resp.json().get('content')` on the decoded JSON object. -/
def fetch_url_content (resp : List (String × Json)) : Option Json :=
  (resp.find? (fun p => p.1 == "content")).map (fun p => p.2)

/-! ## Parameter-bag builders -/

/-- `create_conditions(offset, limit, filters, order_by)`: builds the
`kwargs` dict, keeps the entries whose KEY is truthy (`if k` — the keys are
non-empty literals, so nothing is dropped), then adds
`filter: json.dumps(filters)` when `filters` is truthy. -/
def create_conditions (offset limit filters order_by : Json) : List (String × Json) :=
  let kwargs : List (String × Json) :=
    [("offset", offset), ("limit", limit), ("orderby", order_by)]
  let params := kwargs.filter (fun kv => kv.1 != "")
  if jsonTruthy filters then dictSet params "filter" (.str (jsonDumps filters))
  else params

/-- `create_history_query(action, date, sort_by, start_date, end_date)`:
builds the `kwargs` dict and keeps the entries whose KEY is truthy
(`if k` — again the keys are non-empty literals, so nothing is dropped). -/
def create_history_query (action date sort_by start_date end_date : Json) :
    List (String × Json) :=
  let kwargs : List (String × Json) :=
    [("action", action), ("date", date), ("sort_by", sort_by),
     ("startDate", start_date), ("endDate", end_date)]
  kwargs.filter (fun kv => kv.1 != "")

/-- The key transform of `create_form_submission`: split at the FIRST
underscore when the key contains one (`key[0:key.find("_")]` /
`key[key.find("_")+1:]`), else wrap whole.  No `created_at` special case. -/
def createSubKey (key : String) : String :=
  if key.toList.contains '_' then
    let i := (key.toList.findIdx? (· = '_')).getD 0
    "submission[" ++ String.mk (key.toList.take i) ++ "][" ++
      String.mk (key.toList.drop (i + 1)) ++ "]"
  else "submission[" ++ key ++ "]"

/-- The key transform of `edit_submission`: as in `create_form_submission`,
except a key equal to `created_at` is wrapped whole. -/
def editSubKey (key : String) : String :=
  if key.toList.contains '_' && key != "created_at" then
    let i := (key.toList.findIdx? (· = '_')).getD 0
    "submission[" ++ String.mk (key.toList.take i) ++ "][" ++
      String.mk (key.toList.drop (i + 1)) ++ "]"
  else "submission[" ++ key ++ "]"

/-- The `sub` dict built by `create_form_submission`'s loop. -/
def createFormSubmissionParams (submission : List (String × Json)) : List (String × Json) :=
  submission.foldl (fun p kv => dictSet p (createSubKey kv.1) kv.2) []

/-- The `sub` dict built by `edit_submission`'s loop. -/
def editSubmissionParams (submission : List (String × Json)) : List (String × Json) :=
  submission.foldl (fun p kv => dictSet p (editSubKey kv.1) kv.2) []

/-- The `params` dict built by `create_form_question`'s loop:
`question[key]`, no underscore handling. -/
def createFormQuestionParams (question : List (String × Json)) : List (String × Json) :=
  question.foldl (fun p kv => dictSet p ("question[" ++ kv.1 ++ "]") kv.2) []

/-- The `question` dict built by `edit_form_question`'s loop:
`question[key]`, no underscore handling. -/
def editFormQuestionParams (question_properties : List (String × Json)) :
    List (String × Json) :=
  question_properties.foldl (fun p kv => dictSet p ("question[" ++ kv.1 ++ "]") kv.2) []

/-- The `properties` dict built by `set_form_properties`'s loop:
`properties[key]`, no underscore handling. -/
def setFormPropertiesParams (form_properties : List (String × Json)) :
    List (String × Json) :=
  form_properties.foldl (fun p kv => dictSet p ("properties[" ++ kv.1 ++ "]") kv.2) []

/-- One group of `create_form`'s loop.  The source iterates `for k in
value:` and, for the `properties` group, SHADOWS `k` with a full inner
`for k in value:` pass — so the whole properties pass is repeated once per
outer element.  For any other group each member's value must itself be a
mapping (otherwise python raises; modelled by `none`). -/
def createFormGroup (params : List (String × Json)) (key : String)
    (value : List (String × Json)) : Option (List (String × Json)) :=
  if key == "properties" then
    some (value.foldl (fun p _ =>
      value.foldl (fun p2 kv => dictSet p2 (key ++ "[" ++ kv.1 ++ "]") kv.2) p) params)
  else
    value.foldlM (fun p kv =>
      match kv.2 with
      | .obj l =>
        some (l.foldl (fun p2 av =>
          dictSet p2 (key ++ "[" ++ kv.1 ++ "][" ++ av.1 ++ "]") av.2) p)
      | _ => none) params

/-- The `params` dict built by `create_form`'s nested loops. -/
def createFormParams (form : List (String × List (String × Json))) :
    Option (List (String × Json)) :=
  form.foldlM (fun p kv => createFormGroup p kv.1 kv.2) []

/-- Whether a JSON value is an object (the shape `create_form` requires of
every member of a non-`properties` group). -/
def isObj : Json → Bool
  | .obj _ => true
  | _ => false

/-- Spec-side description of one `create_form` group (named after the
spec's words, to compare with `createFormGroup`): a non-`properties` group
flattens each leaf to `group[field][property] = value`; the `properties`
group flattens each entry to `properties[key] = value`. -/
def createFormGroupSpec (key : String) (value : List (String × Json)) : List (String × Json) :=
  if key == "properties" then value.map (fun kv => (key ++ "[" ++ kv.1 ++ "]", kv.2))
  else value.flatMap (fun kv =>
    match kv.2 with
    | .obj l => l.map (fun av => (key ++ "[" ++ kv.1 ++ "][" ++ av.1 ++ "]", av.2))
    | _ => [])

/-- Spec-side description of `create_form`'s whole parameter mapping. -/
def createFormSpecFlatten (form : List (String × List (String × Json))) : List (String × Json) :=
  form.flatMap (fun g => createFormGroupSpec g.1 g.2)

/-! ## The public operations

Each method of the source is one definition; all are thin callers of
`fetch_url`. -/

def get_user (c : JotformAPIClient) : Option Request :=
  fetch_url c "/user" none "GET"

def get_usage (c : JotformAPIClient) : Option Request :=
  fetch_url c "/user/usage" none "GET"

def get_forms (c : JotformAPIClient) (offset limit filters order_by : Json) : Option Request :=
  fetch_url c "/user/forms" (some (.dict (create_conditions offset limit filters order_by))) "GET"

def get_submissions (c : JotformAPIClient) (offset limit filters order_by : Json) : Option Request :=
  fetch_url c "/user/submissions" (some (.dict (create_conditions offset limit filters order_by))) "GET"

def get_subusers (c : JotformAPIClient) : Option Request :=
  fetch_url c "/user/subusers" none "GET"

def get_folders (c : JotformAPIClient) : Option Request :=
  fetch_url c "/user/folders" none "GET"

def get_reports (c : JotformAPIClient) : Option Request :=
  fetch_url c "/user/reports" none "GET"

def get_settings (c : JotformAPIClient) : Option Request :=
  fetch_url c "/user/settings" none "GET"

def update_settings (c : JotformAPIClient) (settings : List (String × Json)) : Option Request :=
  fetch_url c "/user/settings" (some (.dict settings)) "POST"

def get_history (c : JotformAPIClient) (action date sort_by start_date end_date : Json) : Option Request :=
  fetch_url c "/user/history"
    (some (.dict (create_history_query action date sort_by start_date end_date))) "GET"

def get_form (c : JotformAPIClient) (id : String) : Option Request :=
  fetch_url c ("/form/" ++ id) none "GET"

def get_form_questions (c : JotformAPIClient) (id : String) : Option Request :=
  fetch_url c ("/form/" ++ id ++ "/questions") none "GET"

def get_form_question (c : JotformAPIClient) (id qid : String) : Option Request :=
  fetch_url c ("/form/" ++ id ++ "/question/" ++ qid) none "GET"

def get_form_submissions (c : JotformAPIClient) (id : String)
    (offset limit filters order_by : Json) : Option Request :=
  fetch_url c ("/form/" ++ id ++ "/submissions")
    (some (.dict (create_conditions offset limit filters order_by))) "GET"

def create_form_submission (c : JotformAPIClient) (id : String)
    (submission : List (String × Json)) : Option Request :=
  fetch_url c ("/form/" ++ id ++ "/submissions")
    (some (.dict (createFormSubmissionParams submission))) "POST"

def create_form_submissions (c : JotformAPIClient) (id : String) (submissions : Json) : Option Request :=
  fetch_url c ("/form/" ++ id ++ "/submissions") (some (.json submissions)) "PUT"

def get_form_files (c : JotformAPIClient) (formID : String) : Option Request :=
  fetch_url c ("/form/" ++ formID ++ "/files") none "GET"

def get_form_webhooks (c : JotformAPIClient) (id : String) : Option Request :=
  fetch_url c ("/form/" ++ id ++ "/webhooks") none "GET"

def create_form_webhook (c : JotformAPIClient) (id webhook_url : String) : Option Request :=
  fetch_url c ("/form/" ++ id ++ "/webhooks")
    (some (.dict [("webhookURL", .str webhook_url)])) "POST"

def delete_form_webhook (c : JotformAPIClient) (id webhook_id : String) : Option Request :=
  fetch_url c ("/form/" ++ id ++ "/webhooks/" ++ webhook_id) none "DELETE"

def get_submission (c : JotformAPIClient) (sid : String) : Option Request :=
  fetch_url c ("/submission/" ++ sid) none "GET"

def get_report (c : JotformAPIClient) (report_id : String) : Option Request :=
  fetch_url c ("/report/" ++ report_id) none "GET"

def get_folder (c : JotformAPIClient) (folder_id : String) : Option Request :=
  fetch_url c ("/folder/" ++ folder_id) none "GET"

def get_form_properties (c : JotformAPIClient) (form_id : String) : Option Request :=
  fetch_url c ("/form/" ++ form_id ++ "/properties") none "GET"

def get_form_property (c : JotformAPIClient) (form_id property_key : String) : Option Request :=
  fetch_url c ("/form/" ++ form_id ++ "/properties/" ++ property_key) none "GET"

def get_form_reports (c : JotformAPIClient) (form_id : String) : Option Request :=
  fetch_url c ("/form/" ++ form_id ++ "/reports") none "GET"

def create_report (c : JotformAPIClient) (form_id : String)
    (report : List (String × Json)) : Option Request :=
  fetch_url c ("/form/" ++ form_id ++ "/reports") (some (.dict report)) "POST"

def delete_submission (c : JotformAPIClient) (sid : String) : Option Request :=
  fetch_url c ("/submission/" ++ sid) none "DELETE"

def edit_submission (c : JotformAPIClient) (sid : String)
    (submission : List (String × Json)) : Option Request :=
  fetch_url c ("/submission/" ++ sid) (some (.dict (editSubmissionParams submission))) "POST"

def clone_form (c : JotformAPIClient) (form_id : String) : Option Request :=
  fetch_url c ("/form/" ++ form_id ++ "/clone") (some (.dict [("method", .str "post")])) "POST"

def delete_form_question (c : JotformAPIClient) (form_id qid : String) : Option Request :=
  fetch_url c ("/form/" ++ form_id ++ "/question/" ++ qid) none "DELETE"

def create_form_question (c : JotformAPIClient) (form_id : String)
    (question : List (String × Json)) : Option Request :=
  fetch_url c ("/form/" ++ form_id ++ "/questions")
    (some (.dict (createFormQuestionParams question))) "POST"

def create_form_questions (c : JotformAPIClient) (form_id : String) (questions : Json) : Option Request :=
  fetch_url c ("/form/" ++ form_id ++ "/questions") (some (.json questions)) "PUT"

def edit_form_question (c : JotformAPIClient) (form_id qid : String)
    (question_properties : List (String × Json)) : Option Request :=
  fetch_url c ("/form/" ++ form_id ++ "/question/" ++ qid)
    (some (.dict (editFormQuestionParams question_properties))) "POST"

def set_form_properties (c : JotformAPIClient) (form_id : String)
    (form_properties : List (String × Json)) : Option Request :=
  fetch_url c ("/form/" ++ form_id ++ "/properties")
    (some (.dict (setFormPropertiesParams form_properties))) "POST"

def set_multiple_form_properties (c : JotformAPIClient) (form_id : String)
    (form_properties : Json) : Option Request :=
  fetch_url c ("/form/" ++ form_id ++ "/properties") (some (.json form_properties)) "PUT"

def create_form (c : JotformAPIClient) (form : List (String × List (String × Json))) :
    Option Request :=
  (createFormParams form).bind (fun params =>
    fetch_url c "/user/forms" (some (.dict params)) "POST")

def create_forms (c : JotformAPIClient) (form : Json) : Option Request :=
  fetch_url c "/user/forms" (some (.json form)) "PUT"

def delete_form (c : JotformAPIClient) (form_id : String) : Option Request :=
  fetch_url c ("/form/" ++ form_id) none "DELETE"

def register_user (c : JotformAPIClient) (userDetails : List (String × Json)) : Option Request :=
  fetch_url c "/user/register" (some (.dict userDetails)) "POST"

def login_user (c : JotformAPIClient) (credentials : List (String × Json)) : Option Request :=
  fetch_url c "/user/login" (some (.dict credentials)) "POST"

def logout_user (c : JotformAPIClient) : Option Request :=
  fetch_url c "/user/logout" none "GET"

def get_plan (c : JotformAPIClient) (plan_name : String) : Option Request :=
  fetch_url c ("/system/plan/" ++ plan_name) none "GET"

def delete_report (c : JotformAPIClient) (reportID : String) : Option Request :=
  fetch_url c ("/report/" ++ reportID) none "DELETE"

/-- One invocation of a public operation of the client, with its
arguments. -/
inductive ApiCall where
  | get_user : ApiCall
  | get_usage : ApiCall
  | get_forms (offset limit filters order_by : Json) : ApiCall
  | get_submissions (offset limit filters order_by : Json) : ApiCall
  | get_subusers : ApiCall
  | get_folders : ApiCall
  | get_reports : ApiCall
  | get_settings : ApiCall
  | update_settings (settings : List (String × Json)) : ApiCall
  | get_history (action date sort_by start_date end_date : Json) : ApiCall
  | get_form (id : String) : ApiCall
  | get_form_questions (id : String) : ApiCall
  | get_form_question (id qid : String) : ApiCall
  | get_form_submissions (id : String) (offset limit filters order_by : Json) : ApiCall
  | create_form_submission (id : String) (submission : List (String × Json)) : ApiCall
  | create_form_submissions (id : String) (submissions : Json) : ApiCall
  | get_form_files (formID : String) : ApiCall
  | get_form_webhooks (id : String) : ApiCall
  | create_form_webhook (id webhook_url : String) : ApiCall
  | delete_form_webhook (id webhook_id : String) : ApiCall
  | get_submission (sid : String) : ApiCall
  | get_report (report_id : String) : ApiCall
  | get_folder (folder_id : String) : ApiCall
  | get_form_properties (form_id : String) : ApiCall
  | get_form_property (form_id property_key : String) : ApiCall
  | get_form_reports (form_id : String) : ApiCall
  | create_report (form_id : String) (report : List (String × Json)) : ApiCall
  | delete_submission (sid : String) : ApiCall
  | edit_submission (sid : String) (submission : List (String × Json)) : ApiCall
  | clone_form (form_id : String) : ApiCall
  | delete_form_question (form_id qid : String) : ApiCall
  | create_form_question (form_id : String) (question : List (String × Json)) : ApiCall
  | create_form_questions (form_id : String) (questions : Json) : ApiCall
  | edit_form_question (form_id qid : String) (question_properties : List (String × Json)) : ApiCall
  | set_form_properties (form_id : String) (form_properties : List (String × Json)) : ApiCall
  | set_multiple_form_properties (form_id : String) (form_properties : Json) : ApiCall
  | create_form (form : List (String × List (String × Json))) : ApiCall
  | create_forms (form : Json) : ApiCall
  | delete_form (form_id : String) : ApiCall
  | register_user (userDetails : List (String × Json)) : ApiCall
  | login_user (credentials : List (String × Json)) : ApiCall
  | logout_user : ApiCall
  | get_plan (plan_name : String) : ApiCall
  | delete_report (reportID : String) : ApiCall

/-- Run one public operation against a client in state-passing style: the
resulting client state is returned next to the constructed request.  The
source methods never assign to `self`, so every branch threads the client
through unchanged. -/
def runCall (c : JotformAPIClient) : ApiCall → JotformAPIClient × Option Request
  | .get_user => (c, get_user c)
  | .get_usage => (c, get_usage c)
  | .get_forms o l f ob => (c, get_forms c o l f ob)
  | .get_submissions o l f ob => (c, get_submissions c o l f ob)
  | .get_subusers => (c, get_subusers c)
  | .get_folders => (c, get_folders c)
  | .get_reports => (c, get_reports c)
  | .get_settings => (c, get_settings c)
  | .update_settings s => (c, update_settings c s)
  | .get_history a d sb sd ed => (c, get_history c a d sb sd ed)
  | .get_form id => (c, get_form c id)
  | .get_form_questions id => (c, get_form_questions c id)
  | .get_form_question id qid => (c, get_form_question c id qid)
  | .get_form_submissions id o l f ob => (c, get_form_submissions c id o l f ob)
  | .create_form_submission id s => (c, create_form_submission c id s)
  | .create_form_submissions id s => (c, create_form_submissions c id s)
  | .get_form_files fid => (c, get_form_files c fid)
  | .get_form_webhooks id => (c, get_form_webhooks c id)
  | .create_form_webhook id wu => (c, create_form_webhook c id wu)
  | .delete_form_webhook id wid => (c, delete_form_webhook c id wid)
  | .get_submission sid => (c, get_submission c sid)
  | .get_report rid => (c, get_report c rid)
  | .get_folder fid => (c, get_folder c fid)
  | .get_form_properties fid => (c, get_form_properties c fid)
  | .get_form_property fid pk => (c, get_form_property c fid pk)
  | .get_form_reports fid => (c, get_form_reports c fid)
  | .create_report fid r => (c, create_report c fid r)
  | .delete_submission sid => (c, delete_submission c sid)
  | .edit_submission sid s => (c, edit_submission c sid s)
  | .clone_form fid => (c, clone_form c fid)
  | .delete_form_question fid qid => (c, delete_form_question c fid qid)
  | .create_form_question fid q => (c, create_form_question c fid q)
  | .create_form_questions fid q => (c, create_form_questions c fid q)
  | .edit_form_question fid qid qp => (c, edit_form_question c fid qid qp)
  | .set_form_properties fid fp => (c, set_form_properties c fid fp)
  | .set_multiple_form_properties fid fp => (c, set_multiple_form_properties c fid fp)
  | .create_form f => (c, create_form c f)
  | .create_forms f => (c, create_forms c f)
  | .delete_form fid => (c, delete_form c fid)
  | .register_user ud => (c, register_user c ud)
  | .login_user cr => (c, login_user c cr)
  | .logout_user => (c, logout_user c)
  | .get_plan pn => (c, get_plan c pn)
  | .delete_report rid => (c, delete_report c rid)

/-! ## Shared lemmas -/

lemma string_data_append (a b : String) : (a ++ b).data = a.data ++ b.data := rfl

lemma string_eq_of_data_eq {a b : String} (h : a.data = b.data) : a = b := by
  cases a; cases b; exact congrArg String.mk h

lemma string_wrap_inj (pre suf : String) {a b : String}
    (h : pre ++ a ++ suf = pre ++ b ++ suf) : a = b := by
  have hd : pre.data ++ a.data ++ suf.data = pre.data ++ b.data ++ suf.data := by
    have := congrArg String.data h
    simpa [string_data_append] using this
  have h1 : pre.data ++ a.data = pre.data ++ b.data := List.append_cancel_right hd
  exact string_eq_of_data_eq (List.append_cancel_left h1)

lemma dictSet_not_mem (p : List (String × Json)) (k : String) (v : Json)
    (h : k ∉ p.map Prod.fst) : dictSet p k v = p ++ [(k, v)] := by
  unfold dictSet
  have hany : p.any (fun q => q.1 == k) = false := by
    rw [List.any_eq_false]
    intro x hx
    simp only [beq_iff_eq]
    intro hk
    exact h (hk ▸ List.mem_map_of_mem Prod.fst hx)
  rw [hany]
  simp

lemma keyed_unique {p : List (String × Json)} (hnd : (p.map Prod.fst).Nodup)
    {q r : String × Json} (hq : q ∈ p) (hr : r ∈ p) (hk : q.1 = r.1) : q = r := by
  induction p with
  | nil => cases hq
  | cons x xs ih =>
    simp only [List.map_cons, List.nodup_cons] at hnd
    cases hq with
    | head =>
      cases hr with
      | head => rfl
      | tail _ hr' => exact absurd (hk ▸ List.mem_map_of_mem Prod.fst hr') hnd.1
    | tail _ hq' =>
      cases hr with
      | head => exact absurd (hk ▸ List.mem_map_of_mem Prod.fst hq') hnd.1
      | tail _ hr' => exact ih hnd.2 hq' hr'

lemma dictSet_mem_self (p : List (String × Json)) (k : String) (v : Json)
    (hnd : (p.map Prod.fst).Nodup) (h : (k, v) ∈ p) : dictSet p k v = p := by
  unfold dictSet
  have hany : p.any (fun q => q.1 == k) = true := by
    rw [List.any_eq_true]
    exact ⟨(k, v), h, by simp⟩
  rw [hany]
  simp only [if_true]
  have : ∀ q ∈ p, (if q.1 == k then (k, v) else q) = q := by
    intro q hq
    by_cases hqk : q.1 = k
    · have : q = (k, v) := keyed_unique hnd hq h (by simp [hqk])
      simp [hqk, this]
    · simp [hqk]
  calc p.map (fun q => if q.1 == k then (k, v) else q) = p.map id :=
        List.map_congr_left this
    _ = p := List.map_id p

lemma foldl_dictSet_map (g : String → String) (kvs p : List (String × Json))
    (h : (p.map Prod.fst ++ kvs.map (fun kv => g kv.1)).Nodup) :
    kvs.foldl (fun acc kv => dictSet acc (g kv.1) kv.2) p =
      p ++ kvs.map (fun kv => (g kv.1, kv.2)) := by
  induction kvs generalizing p with
  | nil => simp
  | cons kv rest ih =>
    simp only [List.foldl_cons]
    have hnotmem : g kv.1 ∉ p.map Prod.fst := by
      rw [List.nodup_append] at h
      exact fun hm => h.2.2 hm (by simp)
    rw [dictSet_not_mem p _ _ hnotmem, ih]
    · simp
    · simp only [List.map_cons] at h
      simpa [List.map_append, List.append_assoc] using h

lemma foldl_dictSet_map_fixed (g : String → String) (kvs p : List (String × Json))
    (hnd : (p.map Prod.fst).Nodup) (h : ∀ kv ∈ kvs, (g kv.1, kv.2) ∈ p) :
    kvs.foldl (fun acc kv => dictSet acc (g kv.1) kv.2) p = p := by
  induction kvs with
  | nil => rfl
  | cons kv rest ih =>
    simp only [List.foldl_cons]
    rw [dictSet_mem_self p _ _ hnd (h kv (by simp))]
    exact ih (fun x hx => h x (by simp [hx]))

lemma createFormGroup_notProp (key : String) (value p : List (String × Json))
    (hkey : (key == "properties") = false)
    (hshape : ∀ kv ∈ value, isObj kv.2 = true)
    (hnd : (p.map Prod.fst ++ (createFormGroupSpec key value).map Prod.fst).Nodup) :
    createFormGroup p key value = some (p ++ createFormGroupSpec key value) := by
  induction value generalizing p with
  | nil => simp [createFormGroup, createFormGroupSpec, hkey]
  | cons kv rest ih =>
    obtain ⟨l, hl⟩ : ∃ l, kv.2 = Json.obj l := by
      have h := hshape kv (List.mem_cons_self _ _)
      cases hkv : kv.2 <;> first
        | exact ⟨_, rfl⟩
        | simp [isObj, hkv] at h
    have hspec : createFormGroupSpec key (kv :: rest) =
        l.map (fun av => (key ++ "[" ++ kv.1 ++ "][" ++ av.1 ++ "]", av.2)) ++
          createFormGroupSpec key rest := by
      simp [createFormGroupSpec, hkey, hl]
    have hnd' : ((p.map Prod.fst ++
        l.map (fun av => key ++ "[" ++ kv.1 ++ "][" ++ av.1 ++ "]")) ++
        (createFormGroupSpec key rest).map Prod.fst).Nodup := by
      rw [List.append_assoc]
      simpa [hspec, List.map_map, Function.comp] using hnd
    have hfold := foldl_dictSet_map (fun a => key ++ "[" ++ kv.1 ++ "][" ++ a ++ "]") l p
      (((List.prefix_append _ _).sublist).nodup hnd')
    have ihstep := ih (p ++ l.map (fun av => (key ++ "[" ++ kv.1 ++ "][" ++ av.1 ++ "]", av.2)))
      (fun x hx => hshape x (List.mem_cons_of_mem _ hx))
      (by simpa [List.map_append, List.map_map, Function.comp] using hnd')
    simp only [createFormGroup, hkey, Bool.false_eq_true, if_false] at ihstep ⊢
    rw [List.foldlM_cons]
    simp only [hl, hfold, Option.bind_eq_bind, Option.some_bind]
    rw [ihstep, hspec]
    simp [List.append_assoc]

lemma createFormGroup_prop (key : String) (value p : List (String × Json))
    (hkey : (key == "properties") = true)
    (hnd : (p.map Prod.fst ++ value.map (fun kv => key ++ "[" ++ kv.1 ++ "]")).Nodup) :
    createFormGroup p key value =
      some (p ++ value.map (fun kv => (key ++ "[" ++ kv.1 ++ "]", kv.2))) := by
  cases value with
  | nil => simp [createFormGroup, hkey]
  | cons v0 vrest =>
    have hpass : (v0 :: vrest).foldl
        (fun p2 kv => dictSet p2 (key ++ "[" ++ kv.1 ++ "]") kv.2) p =
        p ++ (v0 :: vrest).map (fun kv => (key ++ "[" ++ kv.1 ++ "]", kv.2)) := by
      simpa using foldl_dictSet_map (fun k => key ++ "[" ++ k ++ "]") (v0 :: vrest) p hnd
    have hfix : (v0 :: vrest).foldl
        (fun p2 kv => dictSet p2 (key ++ "[" ++ kv.1 ++ "]") kv.2)
        (p ++ (v0 :: vrest).map (fun kv => (key ++ "[" ++ kv.1 ++ "]", kv.2))) =
        p ++ (v0 :: vrest).map (fun kv => (key ++ "[" ++ kv.1 ++ "]", kv.2)) := by
      simpa using foldl_dictSet_map_fixed (fun k => key ++ "[" ++ k ++ "]") (v0 :: vrest)
        (p ++ (v0 :: vrest).map (fun kv => (key ++ "[" ++ kv.1 ++ "]", kv.2)))
        (by simpa [List.map_append, List.map_map, Function.comp] using hnd)
        (fun kv hkv => List.mem_append_right _ (List.mem_map_of_mem _ hkv))
    have hiter : ∀ (m : List (String × Json)) (q : List (String × Json)),
        q = p ++ (v0 :: vrest).map (fun kv => (key ++ "[" ++ kv.1 ++ "]", kv.2)) →
        m.foldl (fun q _ => (v0 :: vrest).foldl
          (fun p2 kv => dictSet p2 (key ++ "[" ++ kv.1 ++ "]") kv.2) q) q =
          p ++ (v0 :: vrest).map (fun kv => (key ++ "[" ++ kv.1 ++ "]", kv.2)) := by
      intro m
      induction m with
      | nil => intro q hq; simpa using hq
      | cons _ m ihm =>
        intro q hq
        exact ihm _ (by rw [hq]; exact hfix)
    simp only [createFormGroup, hkey, if_true]
    refine congrArg some ?_
    show vrest.foldl (fun q _ => (v0 :: vrest).foldl
        (fun p2 kv => dictSet p2 (key ++ "[" ++ kv.1 ++ "]") kv.2) q)
        ((v0 :: vrest).foldl
          (fun p2 kv => dictSet p2 (key ++ "[" ++ kv.1 ++ "]") kv.2) p) = _
    rw [hpass]
    exact hiter vrest _ rfl

lemma createFormGroup_spec (key : String) (value p : List (String × Json))
    (hshape : (key == "properties") = false → ∀ kv ∈ value, isObj kv.2 = true)
    (hnd : (p.map Prod.fst ++ (createFormGroupSpec key value).map Prod.fst).Nodup) :
    createFormGroup p key value = some (p ++ createFormGroupSpec key value) := by
  by_cases hkey : (key == "properties") = true
  · have hspec : createFormGroupSpec key value =
        value.map (fun kv => (key ++ "[" ++ kv.1 ++ "]", kv.2)) := by
      simp [createFormGroupSpec, hkey]
    rw [hspec]
    exact createFormGroup_prop key value p hkey
      (by simpa [hspec, List.map_map, Function.comp] using hnd)
  · have hkey' : (key == "properties") = false := by
      exact Bool.eq_false_iff.mpr (fun hc => hkey hc)
    exact createFormGroup_notProp key value p hkey' (hshape hkey') hnd

lemma createFormParams_go (form : List (String × List (String × Json)))
    (p : List (String × Json))
    (hshape : ∀ g ∈ form, (g.1 == "properties") = false → ∀ kv ∈ g.2, isObj kv.2 = true)
    (hnd : (p.map Prod.fst ++ (createFormSpecFlatten form).map Prod.fst).Nodup) :
    form.foldlM (fun q kv => createFormGroup q kv.1 kv.2) p =
      some (p ++ createFormSpecFlatten form) := by
  induction form generalizing p with
  | nil => simp [createFormSpecFlatten]
  | cons g form' ih =>
    have hflat : createFormSpecFlatten (g :: form') =
        createFormGroupSpec g.1 g.2 ++ createFormSpecFlatten form' := by
      simp [createFormSpecFlatten]
    have hnd' : ((p.map Prod.fst ++ (createFormGroupSpec g.1 g.2).map Prod.fst) ++
        (createFormSpecFlatten form').map Prod.fst).Nodup := by
      rw [List.append_assoc]
      simpa [hflat] using hnd
    have hgroup := createFormGroup_spec g.1 g.2 p (hshape g (List.mem_cons_self _ _))
      (((List.prefix_append _ _).sublist).nodup hnd')
    rw [List.foldlM_cons, hgroup]
    have ihstep := ih (p ++ createFormGroupSpec g.1 g.2)
      (fun x hx => hshape x (List.mem_cons_of_mem _ hx))
      (by simpa [List.map_append] using hnd')
    simp only [Option.bind_eq_bind, Option.some_bind]
    rw [ihstep, hflat]
    simp [List.append_assoc]

lemma mem_of_getLast?_eq {α : Type} {l : List α} {a : α} (h : l.getLast? = some a) :
    a ∈ l := by
  have hx : a ∈ l.getLast? := by rw [h]; rfl
  obtain ⟨hne, rfl⟩ := List.mem_getLast?_eq_getLast hx
  exact List.getLast_mem hne

lemma splitOnChar_single {c : Char} {p : List Char} (h : c ∉ p) :
    splitOnChar c p = [p] := by
  induction p with
  | nil => rfl
  | cons x xs ih =>
    have hx : x ≠ c := fun he => h (by rw [← he]; exact List.mem_cons_self _ _)
    have hxs : c ∉ xs := fun hc => h (List.mem_cons_of_mem _ hc)
    simp only [splitOnChar, ih hxs]
    rw [if_neg hx]

lemma splitOnChar_append_cons {c : Char} {p : List Char} (h : c ∉ p) (t : List Char) :
    splitOnChar c (p ++ c :: t) = p :: splitOnChar c t := by
  induction p with
  | nil => simp [splitOnChar]
  | cons x xs ih =>
    have hx : x ≠ c := fun he => h (by rw [← he]; exact List.mem_cons_self _ _)
    have hxs : c ∉ xs := fun hc => h (List.mem_cons_of_mem _ hc)
    simp only [List.cons_append, splitOnChar]
    rw [if_neg hx, List.append_eq, ih hxs]

lemma splitOnChar_joinSep {c : Char} {l : List (List Char)} (hne : l ≠ [])
    (h : ∀ p ∈ l, c ∉ p) : splitOnChar c (joinSep c l) = l := by
  induction l with
  | nil => exact absurd rfl hne
  | cons p rest ih =>
    cases rest with
    | nil => simpa [joinSep] using splitOnChar_single (h p (List.mem_cons_self _ _))
    | cons q t =>
      have hstep : joinSep c (p :: q :: t) = p ++ c :: joinSep c (q :: t) := rfl
      rw [hstep, splitOnChar_append_cons (h p (List.mem_cons_self _ _)),
        ih (by simp) (fun x hx => h x (List.mem_cons_of_mem _ hx))]

lemma not_mem_splitOnChar (c : Char) (cs : List Char) :
    ∀ p ∈ splitOnChar c cs, c ∉ p := by
  induction cs with
  | nil =>
    intro p hp
    simp only [splitOnChar, List.mem_singleton] at hp
    simp [hp]
  | cons x xs ih =>
    intro p hp
    simp only [splitOnChar] at hp
    by_cases hx : x = c
    · rw [if_pos hx] at hp
      cases hp with
      | head => simp
      | tail _ hp' => exact ih p hp'
    · rw [if_neg hx] at hp
      cases hr : splitOnChar c xs with
      | nil =>
        rw [hr] at hp
        simp only [List.mem_singleton] at hp
        subst hp
        intro hc
        simp only [List.mem_singleton] at hc
        exact hx hc.symm
      | cons h0 t =>
        rw [hr] at hp
        cases hp with
        | head =>
          simp only [List.mem_cons]
          rintro (hc | hc)
          · exact hx hc.symm
          · exact ih h0 (by rw [hr]; exact List.mem_cons_self _ _) hc
        | tail _ hp' => exact ih p (by rw [hr]; exact List.mem_cons_of_mem _ hp')

lemma rootOf_cases (cs : List Char) :
    rootOf cs = [] ∨ rootOf cs = ['/'] ∨ rootOf cs = ['/', '/'] := by
  unfold rootOf
  split_ifs <;> simp

lemma joinSep_head (c a : Char) (p0 : List Char) (rest : List (List Char)) :
    ∃ tl, joinSep c ((a :: p0) :: rest) = a :: tl := by
  cases rest with
  | nil => exact ⟨p0, rfl⟩
  | cons q t => exact ⟨p0 ++ c :: joinSep c (q :: t), rfl⟩

lemma parse_render (r : List Char) (hr : r = [] ∨ r = ['/'] ∨ r = ['/', '/'])
    (l : List (List Char)) (hl : l ≠ [])
    (hp : ∀ p ∈ l, p ≠ [] ∧ '/' ∉ p ∧ p ≠ ['.']) :
    rootOf (r ++ joinSep '/' l) = r ∧ pathParts (r ++ joinSep '/' l) = l := by
  obtain ⟨p0, rest, rfl⟩ : ∃ p0 rest, l = p0 :: rest := by
    cases l with
    | nil => exact absurd rfl hl
    | cons a b => exact ⟨a, b, rfl⟩
  obtain ⟨a, p0', rfl⟩ : ∃ a p0', p0 = a :: p0' := by
    cases p0 with
    | nil => exact absurd rfl (hp [] (List.mem_cons_self _ _)).1
    | cons a b => exact ⟨a, b, rfl⟩
  have ha : a ≠ '/' := by
    intro hc
    exact (hp (a :: p0') (List.mem_cons_self _ _)).2.1
      (by rw [hc]; exact List.mem_cons_self _ _)
  obtain ⟨tl, htl⟩ := joinSep_head '/' a p0' rest
  have hsplitbody : splitOnChar '/' (joinSep '/' ((a :: p0') :: rest)) =
      (a :: p0') :: rest :=
    splitOnChar_joinSep (by simp) (fun p hp' => (hp p hp').2.1)
  have hfilter : ((a :: p0') :: rest).filter (fun p => !(p.isEmpty || p == ['.'])) =
      (a :: p0') :: rest := by
    rw [List.filter_eq_self]
    intro p hp'
    obtain ⟨h1, _, h3⟩ := hp p hp'
    have he : p.isEmpty = false := List.isEmpty_eq_false.mpr h1
    have hb : (p == ['.']) = false := beq_eq_false_iff_ne.mpr h3
    simp [he, hb]
  have hemp : ∀ (X : List (List Char)),
      List.filter (fun p => !(p.isEmpty || p == ['.'])) ([] :: X) =
        List.filter (fun p => !(p.isEmpty || p == ['.'])) X := by
    intro X
    simp [List.filter_cons]
  rcases hr with rfl | rfl | rfl
  · constructor
    · rw [List.nil_append, htl]
      simp [rootOf, List.take_succ_cons, ha]
    · rw [List.nil_append]
      unfold pathParts
      rw [hsplitbody, hfilter]
  · constructor
    · rw [List.singleton_append, htl]
      simp [rootOf, List.take_succ_cons, ha]
    · rw [List.singleton_append]
      unfold pathParts
      have hstep : splitOnChar '/' ('/' :: joinSep '/' ((a :: p0') :: rest)) =
          [] :: splitOnChar '/' (joinSep '/' ((a :: p0') :: rest)) := by
        simp [splitOnChar]
      rw [hstep, hsplitbody, hemp, hfilter]
  · constructor
    · rw [List.cons_append, List.cons_append, List.nil_append, htl]
      simp [rootOf, List.take_succ_cons, ha]
    · rw [List.cons_append, List.cons_append, List.nil_append]
      unfold pathParts
      have hstep2 : splitOnChar '/' ('/' :: joinSep '/' ((a :: p0') :: rest)) =
          [] :: splitOnChar '/' (joinSep '/' ((a :: p0') :: rest)) := by
        simp [splitOnChar]
      have hstep1 : splitOnChar '/' ('/' :: '/' :: joinSep '/' ((a :: p0') :: rest)) =
          [] :: splitOnChar '/' ('/' :: joinSep '/' ((a :: p0') :: rest)) := by
        simp [splitOnChar]
      rw [hstep1, hstep2, hsplitbody, hemp, hemp, hfilter]

lemma sufIdx_bounds {name : List Char} {i : Nat} (h : sufIdx name = some i) :
    0 < i ∧ i < name.length - 1 := by
  unfold sufIdx at h
  cases hr : name.reverse.findIdx? (· = '.') with
  | none => rw [hr] at h; cases h
  | some j =>
    rw [hr] at h
    simp only [] at h
    split at h
    · rename_i hcond
      cases h
      exact hcond
    · exact Option.noConfusion h

lemma sufIdx_append_json (stem : List Char) (hs : stem ≠ []) :
    sufIdx (stem ++ ['.', 'j', 's', 'o', 'n']) = some stem.length := by
  have hlen : (stem ++ ['.', 'j', 's', 'o', 'n']).length = stem.length + 5 := by simp
  have hfind : (stem ++ ['.', 'j', 's', 'o', 'n']).reverse.findIdx? (· = '.') = some 4 := by
    have hrev : (stem ++ ['.', 'j', 's', 'o', 'n']).reverse =
        'n' :: 'o' :: 's' :: 'j' :: '.' :: stem.reverse := by simp
    rw [hrev]
    simp [List.findIdx?_cons, List.findIdx?_succ]
  have hpos : 0 < stem.length := List.length_pos.mpr hs
  unfold sufIdx
  rw [hfind]
  simp only [hlen]
  rw [if_pos (by omega)]
  exact congrArg some (by omega)

lemma withSuffixJson_render (r : List Char) (hr : r = [] ∨ r = ['/'] ∨ r = ['/', '/'])
    (dl : List (List Char)) (hdl : ∀ p ∈ dl, p ≠ [] ∧ '/' ∉ p ∧ p ≠ ['.'])
    (stem : List Char) (hs : stem ≠ []) (hsl : '/' ∉ stem) :
    withSuffixJson (r ++ joinSep '/' (dl ++ [stem ++ ['.', 'j', 's', 'o', 'n']])) =
      some (r ++ joinSep '/' (dl ++ [stem ++ ['.', 'j', 's', 'o', 'n']])) := by
  have hall : ∀ p ∈ dl ++ [stem ++ ['.', 'j', 's', 'o', 'n']],
      p ≠ [] ∧ '/' ∉ p ∧ p ≠ ['.'] := by
    intro p hp
    rcases List.mem_append.mp hp with hp' | hp'
    · exact hdl p hp'
    · rw [List.mem_singleton] at hp'
      subst hp'
      refine ⟨by simp, ?_, ?_⟩
      · simp only [List.mem_append]
        rintro (hc | hc)
        · exact hsl hc
        · simp at hc
      · intro hcon
        have hlcon := congrArg List.length hcon
        simp [List.length_append] at hlcon
    -- length stem + 5 = 1 is impossible
  obtain ⟨hroot, hparts⟩ := parse_render r hr (dl ++ [stem ++ ['.', 'j', 's', 'o', 'n']])
    (by simp) hall
  simp only [withSuffixJson]
  rw [hparts, hroot, List.getLast?_concat]
  simp only [sufIdx_append_json stem hs, List.take_left, List.dropLast_concat]

lemma findIdx_split (l : List Char) (h : '_' ∈ l) :
    l.take ((l.findIdx? (· = '_')).getD 0) = l.takeWhile (fun c => c != '_') ∧
    l.drop ((l.findIdx? (· = '_')).getD 0 + 1) =
      (l.dropWhile (fun c => c != '_')).drop 1 := by
  induction l with
  | nil => cases h
  | cons x xs ih =>
    by_cases hx : x = '_'
    · subst hx
      simp [List.findIdx?_cons]
    · have hmem : '_' ∈ xs := by
        cases h with
        | head => exact absurd rfl hx
        | tail _ h' => exact h'
      have hpx : (decide (x = '_')) = false := by simp [hx]
      rw [List.findIdx?_cons]
      cases hfi : xs.findIdx? (fun c => decide (c = '_')) with
      | none =>
        exfalso
        have := List.findIdx?_eq_none_iff.mp hfi '_' hmem
        simp at this
      | some j =>
        have ihj := ih hmem
        rw [hfi] at ihj
        simp only [Option.getD_some] at ihj
        have hxne : (x != '_') = true := by simp [hx]
        simp only [hpx, Bool.false_eq_true, if_false, List.findIdx?_succ, hfi,
          Option.map_some', Option.getD_some]
        constructor
        · simp only [List.take_succ_cons, List.takeWhile_cons, hxne, if_true]
          rw [ihj.1]
        · simp only [List.drop_succ_cons, List.dropWhile_cons, hxne, if_true]
          exact ihj.2

/-! ## The claims -/

/-- C9: the client configuration (`api_key` and `debug_mode`) is immutable
after construction: running any public operation, modelled in state-passing
style, returns the client state unchanged (the client structure holds no
other field a call could store state in). -/
theorem client_config_immutable (c : JotformAPIClient) (call : ApiCall) :
    (runCall c call).1 = c := by
  cases call <;> rfl

/-- C10: the `.json`-suffix step corrupts a final path segment that
contains a dot: on `/form/1.5` it replaces everything from the last dot,
yielding `/form/1.json` instead of `/form/1.5.json`. -/
theorem suffix_step_corrupts_dotted_segment :
    withSuffixJsonS "/form/1.5" = some "/form/1.json" ∧
    withSuffixJsonS "/form/1.5" ≠ some "/form/1.5.json" := by
  exact ⟨by decide, by decide⟩

/-- C1 (failing evaluation): `get_form_questions("123")` constructs a GET
request with the `apiKey` header and no params, but its URL is
`https://api.jotform.com/form/123/questions.json` — `urljoin` against the
versioned base DROPS the `v1` segment because the suffixed endpoint is an
absolute path — not the claimed `https://api.jotform.com/v1/form/123/questions.json`. -/
theorem get_form_questions_url_drops_version :
    get_form_questions ⟨"key", false⟩ "123" =
      some { method := "GET",
             url := "https://api.jotform.com/form/123/questions.json",
             apiKeyHeader := "key", params := none } ∧
    "https://api.jotform.com/form/123/questions.json" ≠
      "https://api.jotform.com/v1/form/123/questions.json" := by
  exact ⟨rfl, by decide⟩

/-- C2 (failing evaluation): the dict comprehension in the helpers filters
on the KEY (`if k`), never on the value, so unset (`None`) arguments are
NOT omitted: `get_history(action="all")` builds
`{action: "all", date: None, sort_by: None, startDate: None, endDate: None}`
rather than `{action: "all"}`, and `create_conditions(None, None, None,
None)` keeps all three `None`-valued keys (only the `filter` key is
correctly gated on `filters` being truthy). -/
theorem history_query_keeps_unset_keys :
    create_history_query (.str "all") .null .null .null .null =
      [("action", .str "all"), ("date", .null), ("sort_by", .null),
       ("startDate", .null), ("endDate", .null)] ∧
    (create_history_query (.str "all") .null .null .null .null).map Prod.fst ≠
      ["action"] ∧
    create_conditions .null .null .null .null =
      [("offset", .null), ("limit", .null), ("orderby", .null)] := by
  exact ⟨rfl, by decide, rfl⟩

/-- C7: the `.json` suffix step of `fetch_url` is idempotent: whenever it
maps a path `s` to a path `q` (already `.json`-suffixed by construction),
applying it to `q` returns `q` unchanged — never `.json.json`. -/
theorem suffix_step_idempotent (s q : String) (h : withSuffixJsonS s = some q) :
    withSuffixJsonS q = some q := by
  obtain ⟨out, hout, hq⟩ := Option.map_eq_some'.mp h
  subst hq
  have hfacts : ∀ p ∈ pathParts s.toList, p ≠ [] ∧ '/' ∉ p ∧ p ≠ ['.'] := by
    intro p hp
    have hp2 := List.mem_of_mem_filter hp
    have hpred := List.of_mem_filter hp
    simp only [Bool.not_eq_eq_eq_not, Bool.not_true, Bool.or_eq_false_iff,
      List.isEmpty_eq_false, beq_eq_false_iff_ne] at hpred
    exact ⟨hpred.1, not_mem_splitOnChar '/' s.toList p hp2, hpred.2⟩
  have hcore : withSuffixJson out = some out := by
    unfold withSuffixJson at hout
    dsimp only [] at hout
    cases hlast : (pathParts s.toList).getLast? with
    | none =>
      rw [hlast] at hout
      exact Option.noConfusion hout
    | some name =>
      rw [hlast] at hout
      simp only [Option.some.injEq] at hout
      have hname := hfacts name (mem_of_getLast?_eq hlast)
      cases hsuf : sufIdx name with
      | none =>
        rw [hsuf] at hout
        simp only [] at hout
        have hrender := withSuffixJson_render (rootOf s.toList) (rootOf_cases _)
          ((pathParts s.toList).dropLast)
          (fun p hp => hfacts p (List.dropLast_subset _ hp))
          name hname.1 hname.2.1
        rw [hout] at hrender
        exact hrender
      | some i =>
        rw [hsuf] at hout
        simp only [] at hout
        obtain ⟨hipos, hilt⟩ := sufIdx_bounds hsuf
        have hstem_ne : name.take i ≠ [] := by
          have hlen : (name.take i).length = i := by
            rw [List.length_take]
            omega
          intro hcon
          rw [hcon] at hlen
          simp at hlen
          omega
        have hstem_ns : '/' ∉ name.take i :=
          fun hc => hname.2.1 (List.take_subset i name hc)
        have hrender := withSuffixJson_render (rootOf s.toList) (rootOf_cases _)
          ((pathParts s.toList).dropLast)
          (fun p hp => hfacts p (List.dropLast_subset _ hp))
          (name.take i) hstem_ne hstem_ns
        rw [hout] at hrender
        exact hrender
  show (withSuffixJson (String.mk out).toList).map String.mk = some (String.mk out)
  have hl : (String.mk out).toList = out := rfl
  rw [hl, hcore, Option.map_some']

/-- Witness for C7: suffixing `/form/123/questions` yields
`/form/123/questions.json`, and re-suffixing that is the identity. -/
theorem suffix_step_idempotent_witness :
    withSuffixJsonS "/form/123/questions" = some "/form/123/questions.json" ∧
    withSuffixJsonS "/form/123/questions.json" = some "/form/123/questions.json" := by
  exact ⟨by decide,
    suffix_step_idempotent "/form/123/questions" "/form/123/questions.json" (by decide)⟩

/-- C3 (counterexample): in `create_form_submission` the key `created_at`
IS split at its underscore — the method's loop has no `created_at` guard —
producing `submission[created][at]`, not the claimed
`submission[created_at]`. -/
theorem created_at_split_by_create_form_submission :
    createFormSubmissionParams [("created_at", .str "2020-01-01")] =
      [("submission[created][at]", .str "2020-01-01")] ∧
    (createFormSubmissionParams [("created_at", .str "2020-01-01")]).map Prod.fst ≠
      ["submission[created_at]"] := by
  exact ⟨rfl, by decide⟩

/-- C3 (amended): only `edit_submission` treats a key literally equal to
`created_at` as atomic (`submission[created_at]`), as in the spec's
scenario 3; `create_form_submission` splits it at the underscore into
`submission[created][at]`. -/
theorem created_at_atomic_only_in_edit_submission (v w : Json) :
    editSubmissionParams [("created_at", v), ("status_new", w)] =
      [("submission[created_at]", v), ("submission[status][new]", w)] ∧
    createFormSubmissionParams [("created_at", v)] =
      [("submission[created][at]", v)] := by
  have h1 : editSubKey "created_at" = "submission[created_at]" := by decide
  have h2 : editSubKey "status_new" = "submission[status][new]" := by decide
  have h3 : createSubKey "created_at" = "submission[created][at]" := by decide
  constructor
  · have := foldl_dictSet_map editSubKey [("created_at", v), ("status_new", w)] []
      (by simp [h1, h2])
    simpa [editSubmissionParams, h1, h2] using this
  · have := foldl_dictSet_map createSubKey [("created_at", v)] [] (by simp)
    simpa [createFormSubmissionParams, h3] using this

/-- C4 (counterexample): the question / property mutation operations do no
underscore splitting at all: `create_form_question` on `name_first` builds
`question[name_first]`, not the claimed `question[name][first]` (and
`set_form_properties` likewise keeps `label_width` whole). -/
theorem question_flattening_does_not_split :
    createFormQuestionParams [("name_first", .str "J")] =
      [("question[name_first]", .str "J")] ∧
    (createFormQuestionParams [("name_first", .str "J")]).map Prod.fst ≠
      ["question[name][first]"] ∧
    editFormQuestionParams [("name_first", .str "J")] =
      [("question[name_first]", .str "J")] ∧
    setFormPropertiesParams [("label_width", .str "120")] =
      [("properties[label_width]", .str "120")] ∧
    (setFormPropertiesParams [("label_width", .str "120")]).map Prod.fst ≠
      ["properties[label][width]"] := by
  exact ⟨rfl, by decide, rfl, rfl, by decide⟩

/-- C4 (amended): `create_form_question`, `edit_form_question` and
`set_form_properties` wrap every key whole in a single-level bracket form —
`question[key]` resp. `properties[key]` — never splitting at underscores. -/
theorem question_property_flattening_one_level (q : List (String × Json))
    (h : (q.map Prod.fst).Nodup) :
    createFormQuestionParams q = q.map (fun kv => ("question[" ++ kv.1 ++ "]", kv.2)) ∧
    editFormQuestionParams q = q.map (fun kv => ("question[" ++ kv.1 ++ "]", kv.2)) ∧
    setFormPropertiesParams q = q.map (fun kv => ("properties[" ++ kv.1 ++ "]", kv.2)) := by
  have hq : (q.map (fun kv => "question[" ++ kv.1 ++ "]")).Nodup := by
    have : q.map (fun kv => "question[" ++ kv.1 ++ "]") =
        (q.map Prod.fst).map (fun k => "question[" ++ k ++ "]") := by
      simp [Function.comp]
    rw [this]
    exact h.map (fun a b hab => string_wrap_inj "question[" "]" hab)
  have hp : (q.map (fun kv => "properties[" ++ kv.1 ++ "]")).Nodup := by
    have : q.map (fun kv => "properties[" ++ kv.1 ++ "]") =
        (q.map Prod.fst).map (fun k => "properties[" ++ k ++ "]") := by
      simp [Function.comp]
    rw [this]
    exact h.map (fun a b hab => string_wrap_inj "properties[" "]" hab)
  refine ⟨?_, ?_, ?_⟩
  · simpa [createFormQuestionParams] using
      foldl_dictSet_map (fun k => "question[" ++ k ++ "]") q [] (by simpa using hq)
  · simpa [editFormQuestionParams] using
      foldl_dictSet_map (fun k => "question[" ++ k ++ "]") q [] (by simpa using hq)
  · simpa [setFormPropertiesParams] using
      foldl_dictSet_map (fun k => "properties[" ++ k ++ "]") q [] (by simpa using hp)

/-- C5: every key containing an underscore and different from `created_at`
is split at its FIRST underscore by both submission flattenings:
`submission[before][after]` with `before` the characters up to the first
underscore and `after` everything past it (so `a_b_c` keeps its later
underscores in the sub-field). -/
theorem submission_split_first_underscore (key : String) (val : Json)
    (h1 : '_' ∈ key.toList) (h2 : key ≠ "created_at") :
    createFormSubmissionParams [(key, val)] =
      [("submission[" ++ String.mk (key.toList.takeWhile (fun c => c != '_')) ++ "][" ++
        String.mk ((key.toList.dropWhile (fun c => c != '_')).drop 1) ++ "]", val)] ∧
    editSubmissionParams [(key, val)] =
      [("submission[" ++ String.mk (key.toList.takeWhile (fun c => c != '_')) ++ "][" ++
        String.mk ((key.toList.dropWhile (fun c => c != '_')).drop 1) ++ "]", val)] := by
  have hc : key.toList.contains '_' = true := by simpa using h1
  have hsplit := findIdx_split key.toList h1
  have hcreate : createSubKey key =
      "submission[" ++ String.mk (key.toList.takeWhile (fun c => c != '_')) ++ "][" ++
        String.mk ((key.toList.dropWhile (fun c => c != '_')).drop 1) ++ "]" := by
    rw [createSubKey, if_pos hc]
    simp only [hsplit.1, hsplit.2]
  have hedit : editSubKey key =
      "submission[" ++ String.mk (key.toList.takeWhile (fun c => c != '_')) ++ "][" ++
        String.mk ((key.toList.dropWhile (fun c => c != '_')).drop 1) ++ "]" := by
    have hcond : (key.toList.contains '_' && key != "created_at") = true := by
      rw [hc]
      simp [h2]
    rw [editSubKey, if_pos hcond]
    simp only [hsplit.1, hsplit.2]
  constructor
  · calc createFormSubmissionParams [(key, val)] = [(createSubKey key, val)] := rfl
      _ = _ := by rw [hcreate]
  · calc editSubmissionParams [(key, val)] = [(editSubKey key, val)] := rfl
      _ = _ := by rw [hedit]

/-- Witness for C5 at the key `a_b_c` of the spec's multi-underscore
example: it flattens to `submission[a][b_c]`. -/
theorem submission_split_first_underscore_witness :
    ('_' ∈ "a_b_c".toList) ∧ ("a_b_c" : String) ≠ "created_at" ∧
    createFormSubmissionParams [("a_b_c", Json.str "v")] =
      [("submission[" ++ String.mk ("a_b_c".toList.takeWhile (fun c => c != '_')) ++ "][" ++
        String.mk (("a_b_c".toList.dropWhile (fun c => c != '_')).drop 1) ++ "]",
        Json.str "v")] ∧
    "submission[" ++ String.mk ("a_b_c".toList.takeWhile (fun c => c != '_')) ++ "][" ++
      String.mk (("a_b_c".toList.dropWhile (fun c => c != '_')).drop 1) ++ "]" =
      "submission[a][b_c]" := by
  exact ⟨by decide, by decide,
    (submission_split_first_underscore "a_b_c" (Json.str "v") (by decide) (by decide)).1,
    by decide⟩

/-- C6: on every well-shaped two-level nested input (each member of a
non-`properties` group is itself a mapping), `create_form` produces exactly
the spec's mapping: `group[field][property] = value` for each leaf of every
non-`properties` group and `properties[key] = value` for each entry of the
`properties` group, and nothing else — the shadowed re-iteration of the
`properties` loop in the source only overwrites entries with themselves.
(The no-duplicate hypothesis on the generated keys holds for any real
python input, whose dict keys are unique.) -/
theorem create_form_flattening (form : List (String × List (String × Json)))
    (hshape : ∀ g ∈ form, (g.1 == "properties") = false → ∀ kv ∈ g.2, isObj kv.2 = true)
    (hnd : ((createFormSpecFlatten form).map Prod.fst).Nodup) :
    createFormParams form = some (createFormSpecFlatten form) := by
  have h := createFormParams_go form [] hshape (by simpa using hnd)
  simpa [createFormParams] using h

/-- Witness for C6 at a concrete form with a `questions` group and a
`properties` group. -/
theorem create_form_flattening_witness :
    (∀ g ∈ [("questions", [("1", Json.obj [("type", Json.str "control_head"),
        ("text", Json.str "Hi")])]),
      ("properties", [("title", Json.str "T")])],
      (g.1 == "properties") = false → ∀ kv ∈ g.2, isObj kv.2 = true) ∧
    ((createFormSpecFlatten [("questions", [("1", Json.obj [("type", Json.str "control_head"),
        ("text", Json.str "Hi")])]),
      ("properties", [("title", Json.str "T")])]).map Prod.fst).Nodup ∧
    createFormParams [("questions", [("1", Json.obj [("type", Json.str "control_head"),
        ("text", Json.str "Hi")])]),
      ("properties", [("title", Json.str "T")])] =
      some (createFormSpecFlatten [("questions", [("1", Json.obj [("type", Json.str "control_head"),
        ("text", Json.str "Hi")])]),
      ("properties", [("title", Json.str "T")])]) ∧
    (createFormSpecFlatten [("questions", [("1", Json.obj [("type", Json.str "control_head"),
        ("text", Json.str "Hi")])]),
      ("properties", [("title", Json.str "T")])]).map Prod.fst =
      ["questions[1][type]", "questions[1][text]", "properties[title]"] := by
  exact ⟨by decide, by decide, create_form_flattening _ (by decide) (by decide), by decide⟩

/-- C8: on a decoded JSON response object (unique keys, as for any python
dict), `fetch_url`'s `resp.json().get('content')` returns exactly the
value of the `content` key, and `none` — not an error — when the key is
absent. -/
theorem fetch_url_content_returns_content (resp : List (String × Json))
    (hnd : (resp.map Prod.fst).Nodup) :
    (∀ v, ("content", v) ∈ resp → fetch_url_content resp = some v) ∧
    ((∀ v, ("content", v) ∉ resp) → fetch_url_content resp = none) := by
  induction resp with
  | nil => exact ⟨fun v hv => (List.not_mem_nil _ hv).elim, fun _ => rfl⟩
  | cons x xs ih =>
    simp only [List.map_cons, List.nodup_cons] at hnd
    refine ⟨?_, ?_⟩
    · intro v hv
      by_cases hx : x.1 = "content"
      · have hfind : fetch_url_content (x :: xs) = some x.2 := by
          simp [fetch_url_content, List.find?_cons, hx]
        cases hv with
        | head => exact hfind
        | tail _ hmem =>
          have hc : "content" ∈ xs.map Prod.fst := List.mem_map_of_mem Prod.fst hmem
          exact absurd hc (hx ▸ hnd.1)
      · have hfind : fetch_url_content (x :: xs) = fetch_url_content xs := by
          simp [fetch_url_content, List.find?_cons, hx]
        cases hv with
        | head => exact absurd rfl hx
        | tail _ hmem =>
          rw [hfind]
          exact (ih hnd.2).1 v hmem
    · intro hnone
      simp only [fetch_url_content, Option.map_eq_none']
      rw [List.find?_eq_none]
      intro q hq
      simp only [beq_iff_eq]
      intro h1
      have hq' : ("content", q.2) ∈ x :: xs := by
        rw [← h1]
        simpa using hq
      exact hnone q.2 hq'

/-- Witness for C8: a response with a `content` key yields its value; one
without yields `none`. -/
theorem fetch_url_content_returns_content_witness :
    (([("responseCode", Json.num 200), ("content", Json.str "ok")].map Prod.fst).Nodup) ∧
    fetch_url_content [("responseCode", Json.num 200), ("content", Json.str "ok")] =
      some (Json.str "ok") ∧
    fetch_url_content [("responseCode", Json.num 200)] = none := by
  refine ⟨by decide, ?_, ?_⟩
  · exact (fetch_url_content_returns_content _ (by decide)).1 (Json.str "ok")
      (List.mem_cons_of_mem _ (List.mem_cons_self _ _))
  · refine (fetch_url_content_returns_content _ (by decide)).2 ?_
    intro v hv
    simp [Prod.ext_iff] at hv

/-- Witness for C4's amended theorem at a concrete question dict. -/
theorem question_property_flattening_one_level_witness :
    (([("type", Json.str "control_head"), ("text", Json.str "Hi")].map Prod.fst).Nodup) ∧
    createFormQuestionParams [("type", Json.str "control_head"), ("text", Json.str "Hi")] =
      [("type", Json.str "control_head"), ("text", Json.str "Hi")].map
        (fun kv => ("question[" ++ kv.1 ++ "]", kv.2)) := by
  exact ⟨by decide,
    (question_property_flattening_one_level _ (by decide)).1⟩
